import Mathlib

/-!
# Verification of the `behold` contextual-debugging library

Shallow embedding of `src/src/lib.rs` (crate `behold`).

The Rust code is a single struct `Behold` with fields
`context : Arc<Mutex<BTreeMap<String, bool>>>`, `speak_up : bool`,
`tag : Option<String>`, operations `new`, `set_context`, `tag`, `tag_str`,
`when`, `when_context`, `show`, `show_str`, a free function `behold()` and a
`lazy_static` global `BEHOLD`.

Modelling choices:
* The `BTreeMap<String, bool>` is modelled as an association list
  `List (String × Bool)` with overwrite-on-insert (`insertStore`) and first
  match lookup (`getStore`); since `insertStore` never duplicates a key the
  observable get/insert behaviour coincides with the ordered map.
* An `Arc<Mutex<...>>` reference is modelled as an index into a `World`
  holding the list of allocated mutex-guarded stores.  Each `MutexStore`
  carries its `poisoned` bit: `Mutex::lock` returns `Err` exactly when the
  mutex is poisoned, which is what both `set_context` and `when_context`
  turn into a `panic!`.  A panic is modelled as `Except.error`.
* `println!` output is modelled as the list of emitted lines: `show`
  returns the lines it prints (one line, or none).
* Pure derivations (`tag`, `when`) neither receive nor return the `World`,
  mirroring that they only clone the `Arc` and copy instance-local fields.
* The Lean structure field `Behold.tag` shadows the name of the Rust method
  `Behold::tag`, so the method is embedded as `Behold.with_tag`
  (the spec's name for the same operation).
-/

/-- A single key-to-flag entry store, mirroring the `BTreeMap<String, bool>`
behind one `Mutex`, together with the mutex's poisoned bit. -/
structure MutexStore where
  data : List (String × Bool)
  poisoned : Bool
deriving Repr, DecidableEq

/-- The heap of allocated `Arc<Mutex<BTreeMap<String,bool>>>` cells; a
`Behold.context` field is an index into `stores`. -/
structure World where
  stores : List MutexStore
deriving Repr, DecidableEq

/-- Insert/overwrite a key in the store, mirroring `BTreeMap::insert`
(observable behaviour only: the ordering of entries is irrelevant to `get`). -/
def insertStore : List (String × Bool) → String → Bool → List (String × Bool)
  | [], k, v => [(k, v)]
  | (k', v') :: rest, k, v =>
      if k' = k then (k, v) :: rest else (k', v') :: insertStore rest k v

/-- Look a key up in the store, mirroring `BTreeMap::get(&key).cloned()`. -/
def getStore : List (String × Bool) → String → Option Bool
  | [], _ => none
  | (k', v') :: rest, k => if k' = k then some v' else getStore rest k

/-- Key presence in a store (for the never-shrinks invariant): a key is
present exactly when `BTreeMap::get` finds it. -/
def hasKey (ms : MutexStore) (k : String) : Bool :=
  (getStore ms.data k).isSome

/-- The `Behold` struct: shared store reference, instance-local active flag
and instance-local optional tag. -/
structure Behold where
  context : Nat
  speak_up : Bool
  tag : Option String
deriving Repr, DecidableEq

/-- The panic message of the poisoned-lock branch (its exact text is not
part of any claim; `Except.error` carries it only to distinguish panics). -/
def poisonPanic : String := "mutex already acquired"

/-- Error for a dangling store reference.  Unreachable in the embedded
program (the only store is allocated by `initWorld` and index 0 is always
valid), kept so the operations are total. -/
def danglingRef : String := "dangling store reference"

/-- `Behold::set_context`: lock the shared store; on success insert/overwrite
the key; on a poisoned lock, panic. -/
def Behold.set_context (b : Behold) (key : String) (value : Bool)
    (w : World) : Except String World :=
  match w.stores.get? b.context with
  | none => .error danglingRef
  | some ms =>
      if ms.poisoned then .error poisonPanic
      else .ok ⟨w.stores.set b.context ⟨insertStore ms.data key value, ms.poisoned⟩⟩

/-- `Behold::tag` (named `with_tag` here because the structure field `tag`
occupies the name): new instance, same store reference, same active flag,
tag replaced. -/
def Behold.with_tag (b : Behold) (t : String) : Behold :=
  { context := b.context, speak_up := b.speak_up, tag := some t }

/-- `Behold::tag_str`: delegates to `tag` after `to_string` (identity in
this embedding, where both `String` and `&str` are `String`). -/
def Behold.tag_str (b : Behold) (t : String) : Behold :=
  b.with_tag t

/-- `Behold::when`: new instance, same store reference, same tag, active
flag replaced. -/
def Behold.when (b : Behold) (speak_up : Bool) : Behold :=
  { context := b.context, speak_up := speak_up, tag := b.tag }

/-- `Behold::when_context`: lock the shared store; on success look the key
up, defaulting to `false` (`unwrap_or_default`), and return a new instance
with that active flag, same store reference, same tag; on a poisoned lock,
panic.  The world is returned unchanged: the critical section only reads. -/
def Behold.when_context (b : Behold) (key : String)
    (w : World) : Except String (Behold × World) :=
  match w.stores.get? b.context with
  | none => .error danglingRef
  | some ms =>
      if ms.poisoned then .error poisonPanic
      else .ok ({ context := b.context,
                  speak_up := (getStore ms.data key).getD false,
                  tag := b.tag }, w)

/-- `Behold::show`: if active, print the message, with `", tag"` appended
when a tag is set; otherwise print nothing.  The result is the list of
emitted lines. -/
def Behold.show (b : Behold) (msg : String) : List String :=
  if b.speak_up then
    match b.tag with
    | some t => [msg ++ ", " ++ t]
    | none => [msg]
  else []

/-- `Behold::show_str`: delegates to `show` after `to_string` (identity in
this embedding). -/
def Behold.show_str (b : Behold) (msg : String) : List String :=
  b.show msg

/-- Modelled from the spec: the operation `invoke(callback)` appears in the
spec ("if the instance's active flag is true, invoke the zero-argument
callback ...; otherwise it is a no-op") but no `invoke` method exists in
`src/src/lib.rs`.  The callback is modelled as a state transformer so that
"invoked exactly once" is observable on the state. -/
def Behold.invoke {σ : Type} (b : Behold) (callback : σ → σ) (s : σ) : σ :=
  if b.speak_up then callback s else s

/-- The world as established by the `lazy_static` initializer: one shared
store, empty mapping, lock not poisoned. -/
def initWorld : World :=
  ⟨[⟨[], false⟩]⟩

/-- The `lazy_static` global `BEHOLD`: references the single shared store,
`speak_up = true`, no tag. -/
def BEHOLD : Behold :=
  { context := 0, speak_up := true, tag := none }

/-- `Behold::new`: clones the global `BEHOLD`. -/
def Behold.new : Behold :=
  BEHOLD

/-- The free convenience function `behold()`. -/
def behold : Behold :=
  Behold.new

/-- Run a sequence of `set_context` calls (each through the default handle,
which references the single shared store) starting from a given world. -/
def runSets : List (String × Bool) → World → Except String World
  | [], w => .ok w
  | (k, v) :: rest, w =>
      match BEHOLD.set_context k v w with
      | .ok w' => runSets rest w'
      | .error e => .error e

/-! ## Store lemmas -/

theorem getStore_insertStore_self (l : List (String × Bool)) (k : String) (v : Bool) :
    getStore (insertStore l k v) k = some v := by
  induction l with
  | nil => simp [insertStore, getStore]
  | cons p rest ih =>
      obtain ⟨k', v'⟩ := p
      by_cases h : k' = k
      · simp [insertStore, getStore, h]
      · simp [insertStore, getStore, h, ih]

theorem getStore_insertStore_ne (l : List (String × Bool)) (k k' : String) (v : Bool)
    (h : k ≠ k') : getStore (insertStore l k v) k' = getStore l k' := by
  have h' : k' ≠ k := fun hh => h hh.symm
  induction l with
  | nil => simp [insertStore, getStore, h, h']
  | cons p rest ih =>
      obtain ⟨k₀, v₀⟩ := p
      by_cases h₀ : k₀ = k
      · subst h₀
        simp [insertStore, getStore, h, h']
      · by_cases h₁ : k₀ = k'
        · simp [insertStore, getStore, h, h', h₀, h₁]
        · simp [insertStore, getStore, h₀, h₁, ih]

theorem hasKey_insertStore (l : List (String × Bool)) (k k' : String) (v : Bool) :
    (getStore (insertStore l k v) k').isSome =
      (if k' = k then true else (getStore l k').isSome) := by
  by_cases h : k' = k
  · subst h
    simp [getStore_insertStore_self]
  · have h' : k ≠ k' := fun hh => h hh.symm
    simp [getStore_insertStore_ne l k k' v h', h]

/-! ## Claim theorems -/

/-- C2: `show(message)` emits exactly the line `"<message>, <tag>"` when the
active flag is true and a tag is set; exactly the unmodified message when the
active flag is true and no tag is set; and nothing at all when the active
flag is false.  Stated over all instances via the constructor, so the three
cases are exhaustive. -/
theorem show_emits_exactly (c : Nat) (msg t : String) (tg : Option String) :
    (Behold.mk c true (some t)).show msg = [msg ++ ", " ++ t]
    ∧ (Behold.mk c true none).show msg = [msg]
    ∧ (Behold.mk c false tg).show msg = [] :=
  ⟨rfl, rfl, rfl⟩

/-- C4: an active instance invokes the callback exactly once, an inactive
instance never invokes it.  The third conjunct counts invocations with a
`Nat` counter; the first two are the spec's end-to-end scenario through
`create_default().when(...)`.  `invoke` is modelled from the spec, as no
such method exists in `src/src/lib.rs`. -/
theorem invoke_exactly_once {σ : Type} (f : σ → σ) (s : σ) (b : Behold) :
    (behold.when true).invoke f s = f s
    ∧ (behold.when false).invoke f s = s
    ∧ b.invoke (fun n : Nat => n + 1) 0 = (if b.speak_up then 1 else 0) := by
  refine ⟨rfl, rfl, ?_⟩
  by_cases h : b.speak_up <;> simp [Behold.invoke, h]

/-- C5: `tag` (here `with_tag`) and `when` are pure derivations: each
returns a new instance with the same store reference and exactly one
instance-local field replaced.  Non-mutation of the receiver is captured by
the embedding itself: both operations neither receive nor return the
`World`, so no shared state and no other instance can change. -/
theorem derive_pure (b : Behold) (t : String) (s : Bool) :
    (b.with_tag t).context = b.context
    ∧ (b.with_tag t).speak_up = b.speak_up
    ∧ (b.with_tag t).tag = some t
    ∧ (b.when s).context = b.context
    ∧ (b.when s).tag = b.tag
    ∧ (b.when s).speak_up = s :=
  ⟨rfl, rfl, rfl, rfl, rfl, rfl⟩

/-- C6: `Behold::new` (and the free function `behold()`) always returns a
copy of the single global `BEHOLD`: active flag true, no tag, referencing
store 0 — the unique store of the lazily initialized world, which starts as
an empty, unpoisoned mapping. -/
theorem create_default_spec :
    Behold.new = BEHOLD
    ∧ behold = BEHOLD
    ∧ Behold.new.speak_up = true
    ∧ Behold.new.tag = none
    ∧ Behold.new.context = 0
    ∧ initWorld.stores.length = 1
    ∧ initWorld.stores.get? 0 = some ⟨[], false⟩ :=
  ⟨rfl, rfl, rfl, rfl, rfl, rfl, rfl⟩

/-- C9: the `&str` convenience wrappers agree extensionally with their
`String` counterparts: `tag_str` returns the same instance as `tag` and
`show_str` emits the same output as `show` (after `to_string`, the identity
in this embedding). -/
theorem str_wrappers_equiv (b : Behold) (s m : String) :
    b.tag_str s = b.with_tag s ∧ b.show_str m = b.show m :=
  ⟨rfl, rfl⟩

/-- C10: `show` never reads the shared store: two instances with equal
active flag and equal tag produce identical output for the same message,
whatever store they reference (and `show` takes no `World` at all, so no
`set_context` call made after derivation can affect it). -/
theorem show_ignores_store (c₁ c₂ : Nat) (s : Bool) (t : Option String) (msg : String) :
    (Behold.mk c₁ s t).show msg = (Behold.mk c₂ s t).show msg :=
  rfl

/-- C1: after `set_context k v` succeeds on a handle `b`, `when_context k`
on any handle `b'` sharing the same store reference (the default included)
yields an instance whose active flag equals `v`. -/
theorem set_then_when_context (b b' : Behold) (k : String) (v : Bool) (w w' : World)
    (hshare : b'.context = b.context)
    (hset : b.set_context k v w = .ok w') :
    ∃ b'', b'.when_context k w' = .ok (b'', w') ∧ b''.speak_up = v := by
  unfold Behold.set_context at hset
  cases hget : w.stores.get? b.context with
  | none => rw [hget] at hset; cases hset
  | some ms =>
      rw [hget] at hset
      by_cases hp : ms.poisoned = true
      · simp [hp] at hset
      · have hps : ms.poisoned = false := by simpa using hp
        simp only [hps, Bool.false_eq_true, if_false] at hset
        have hw' : w' = ⟨w.stores.set b.context ⟨insertStore ms.data k v, false⟩⟩ := by
          cases hset; rfl
        have hget' : w'.stores.get? b'.context
            = some ⟨insertStore ms.data k v, false⟩ := by
          rw [hw', hshare]
          show (w.stores.set b.context _).get? b.context = _
          rw [List.get?_eq_getElem?, List.getElem?_set_self', ← List.get?_eq_getElem?, hget]
          rfl
        refine ⟨⟨b'.context, (getStore (insertStore ms.data k v) k).getD false, b'.tag⟩, ?_, ?_⟩
        · unfold Behold.when_context
          rw [hget']
          simp
        · rw [getStore_insertStore_self]
          rfl

/-- Witness for C1 at a concrete input: setting the key on the initial
world, then reading it back through the default handle, yields active. -/
theorem set_then_when_context_witness :
    ∃ b'', BEHOLD.when_context "do-it" (World.mk [MutexStore.mk [("do-it", true)] false])
        = .ok (b'', World.mk [MutexStore.mk [("do-it", true)] false])
      ∧ b''.speak_up = true :=
  set_then_when_context BEHOLD BEHOLD "do-it" true initWorld
    (World.mk [MutexStore.mk [("do-it", true)] false]) rfl rfl

/-- Helper for C3: running `set_context` calls that all avoid key `k`
preserves the invariant that the shared store is unpoisoned and has no
entry for `k`. -/
theorem runSets_preserves_absent (ops : List (String × Bool)) (k : String)
    (hk : ∀ p ∈ ops, p.1 ≠ k) :
    ∀ w w', (∃ ms, w.stores.get? BEHOLD.context = some ms
        ∧ ms.poisoned = false ∧ getStore ms.data k = none) →
      runSets ops w = .ok w' →
      ∃ ms, w'.stores.get? BEHOLD.context = some ms
        ∧ ms.poisoned = false ∧ getStore ms.data k = none := by
  induction ops with
  | nil =>
      intro w w' hinv hrun
      simp only [runSets] at hrun
      cases hrun
      exact hinv
  | cons p rest ih =>
      obtain ⟨k₀, v₀⟩ := p
      intro w w' hinv hrun
      obtain ⟨ms, hget, hps, habs⟩ := hinv
      have hset : BEHOLD.set_context k₀ v₀ w
          = .ok ⟨w.stores.set BEHOLD.context ⟨insertStore ms.data k₀ v₀, false⟩⟩ := by
        unfold Behold.set_context
        rw [hget]
        simp [hps]
      simp only [runSets, hset] at hrun
      have hk' : ∀ p ∈ rest, p.1 ≠ k := fun p hp => hk p (List.mem_cons_of_mem _ hp)
      refine ih hk' _ w' ?_ hrun
      refine ⟨⟨insertStore ms.data k₀ v₀, false⟩, ?_, rfl, ?_⟩
      · show (w.stores.set BEHOLD.context _).get? BEHOLD.context = _
        rw [List.get?_eq_getElem?, List.getElem?_set_self', ← List.get?_eq_getElem?, hget]
        rfl
      · have hne : k₀ ≠ k := hk (k₀, v₀) (List.mem_cons_self _ _)
        rw [getStore_insertStore_ne _ _ _ _ hne, habs]

/-- C3: for a key `k` never passed to `set_context`, `when_context k`
succeeds (no error) and returns an instance whose active flag is false,
whose `show` therefore emits nothing. -/
theorem unset_key_inactive (ops : List (String × Bool)) (k : String) (w' : World)
    (hk : ∀ p ∈ ops, p.1 ≠ k)
    (hrun : runSets ops initWorld = .ok w') :
    ∃ b, BEHOLD.when_context k w' = .ok (b, w')
      ∧ b.speak_up = false ∧ ∀ msg, b.show msg = [] := by
  obtain ⟨ms, hget, hps, habs⟩ :=
    runSets_preserves_absent ops k hk initWorld w' ⟨⟨[], false⟩, rfl, rfl, rfl⟩ hrun
  refine ⟨⟨BEHOLD.context, false, BEHOLD.tag⟩, ?_, rfl, fun msg => rfl⟩
  unfold Behold.when_context
  rw [hget]
  simp [hps, habs]

/-- Witness for C3 at a concrete input: after setting only the key
`"other"`, reading `"do-it"` yields an inactive, silent instance. -/
theorem unset_key_inactive_witness :
    ∃ b, BEHOLD.when_context "do-it" (World.mk [MutexStore.mk [("other", true)] false])
        = .ok (b, World.mk [MutexStore.mk [("other", true)] false])
      ∧ b.speak_up = false ∧ ∀ msg, b.show msg = [] :=
  unset_key_inactive [("other", true)] "do-it"
    (World.mk [MutexStore.mk [("other", true)] false]) (by decide) rfl

/-- C7: with a valid store reference, `set_context` and `when_context`
panic (return an error) exactly when the lock is poisoned; when it is not
poisoned the fatal branch is unreachable and both complete normally. -/
theorem panic_iff_poisoned (b : Behold) (k : String) (v : Bool) (w : World)
    (hval : b.context < w.stores.length) :
    ((∃ e, b.set_context k v w = .error e)
        ↔ (w.stores[b.context]).poisoned = true)
    ∧ ((∃ e, b.when_context k w = .error e)
        ↔ (w.stores[b.context]).poisoned = true)
    ∧ ((w.stores[b.context]).poisoned = false →
        (∃ w', b.set_context k v w = .ok w') ∧ (∃ r, b.when_context k w = .ok r)) := by
  have hget : w.stores.get? b.context = some (w.stores[b.context]) := by
    rw [List.get?_eq_getElem?]
    exact List.getElem?_eq_getElem hval
  by_cases hp : (w.stores[b.context]).poisoned = true
  · refine ⟨⟨fun _ => hp, fun _ => ?_⟩, ⟨fun _ => hp, fun _ => ?_⟩,
            fun hps => absurd hp (by simp [hps])⟩
    · exact ⟨poisonPanic, by unfold Behold.set_context; rw [hget]; simp [hp]⟩
    · exact ⟨poisonPanic, by unfold Behold.when_context; rw [hget]; simp [hp]⟩
  · have hps : (w.stores[b.context]).poisoned = false := by simpa using hp
    refine ⟨⟨fun he => ?_, fun hpp => absurd hpp hp⟩,
            ⟨fun he => ?_, fun hpp => absurd hpp hp⟩,
            fun _ =>
              ⟨⟨⟨w.stores.set b.context
                    ⟨insertStore (w.stores[b.context]).data k v,
                     (w.stores[b.context]).poisoned⟩⟩,
                 by unfold Behold.set_context; rw [hget]; simp [hps]⟩,
               ⟨(⟨b.context, (getStore (w.stores[b.context]).data k).getD false, b.tag⟩, w),
                 by unfold Behold.when_context; rw [hget]; simp [hps]⟩⟩⟩
    · obtain ⟨e, he⟩ := he
      unfold Behold.set_context at he
      rw [hget] at he
      simp [hps] at he
    · obtain ⟨e, he⟩ := he
      unfold Behold.when_context at he
      rw [hget] at he
      simp [hps] at he

/-- Witness for C7 at a concrete input: on the unpoisoned initial world
both operations complete normally through the default handle. -/
theorem panic_iff_poisoned_witness :
    (∃ w', BEHOLD.set_context "k" true initWorld = .ok w')
    ∧ (∃ r, BEHOLD.when_context "k" initWorld = .ok r) :=
  (panic_iff_poisoned BEHOLD "k" true initWorld (by decide)).2.2 rfl

/-- C8: the shared store never shrinks.  A successful `set_context` keeps
every allocated store (same heap length, untouched stores unchanged); in
the touched store every key already present stays present, keys other than
the written one keep their presence status unchanged, and the written key
is present afterwards — so a single key is inserted or overwritten and no
key is ever removed.  `when_context` returns the world unchanged; `tag`,
`when` and `show` neither receive nor return the world, so they cannot
touch the store at all. -/
theorem store_never_shrinks (b : Behold) (k : String) (v : Bool) (w w' : World)
    (hset : b.set_context k v w = .ok w') :
    w'.stores.length = w.stores.length
    ∧ (∀ j, j ≠ b.context → w'.stores.get? j = w.stores.get? j)
    ∧ (∀ ms ms', w.stores.get? b.context = some ms →
        w'.stores.get? b.context = some ms' →
        (∀ k', hasKey ms k' = true → hasKey ms' k' = true)
        ∧ (∀ k', k' ≠ k → hasKey ms' k' = hasKey ms k')
        ∧ hasKey ms' k = true)
    ∧ (∀ (b₂ : Behold) (k₂ : String) (r : Behold × World),
        b₂.when_context k₂ w = .ok r → r.2 = w) := by
  unfold Behold.set_context at hset
  cases hget : w.stores.get? b.context with
  | none => rw [hget] at hset; cases hset
  | some ms₀ =>
      rw [hget] at hset
      by_cases hp : ms₀.poisoned = true
      · simp [hp] at hset
      · have hps : ms₀.poisoned = false := by simpa using hp
        simp only [hps, Bool.false_eq_true, if_false] at hset
        have hw' : w' = ⟨w.stores.set b.context ⟨insertStore ms₀.data k v, false⟩⟩ := by
          cases hset; rfl
        subst hw'
        refine ⟨List.length_set .., ?_, ?_, ?_⟩
        · intro j hj
          rw [List.get?_eq_getElem?, List.get?_eq_getElem?]
          exact List.getElem?_set_ne (fun hh => hj hh.symm)
        · intro ms ms' hms hms'
          have hmseq : ms = ms₀ :=
            (Option.some.inj hms).symm
          have hset' : (List.set w.stores b.context
              ⟨insertStore ms₀.data k v, false⟩).get? b.context
              = some ⟨insertStore ms₀.data k v, false⟩ := by
            rw [List.get?_eq_getElem?, List.getElem?_set_self', ← List.get?_eq_getElem?, hget]
            rfl
          have hms'eq : ms' = ⟨insertStore ms₀.data k v, false⟩ :=
            (Option.some.inj (hset'.symm.trans hms')).symm
          subst hmseq
          subst hms'eq
          refine ⟨?_, ?_, ?_⟩
          · intro k' hk'
            by_cases hkk : k' = k
            · subst hkk
              simp [hasKey, getStore_insertStore_self]
            · have hne : k ≠ k' := fun hh => hkk hh.symm
              simpa [hasKey, getStore_insertStore_ne _ _ _ _ hne] using hk'
          · intro k' hkk
            have hne : k ≠ k' := fun hh => hkk hh.symm
            simp [hasKey, getStore_insertStore_ne _ _ _ _ hne]
          · simp [hasKey, getStore_insertStore_self]
        · intro b₂ k₂ r hr
          unfold Behold.when_context at hr
          cases hget₂ : w.stores.get? b₂.context with
          | none => rw [hget₂] at hr; cases hr
          | some ms₂ =>
              rw [hget₂] at hr
              by_cases hp₂ : ms₂.poisoned = true
              · simp [hp₂] at hr
              · simp only [hp₂, if_false, Bool.false_eq_true] at hr
                cases hr
                rfl

/-- Witness for C8 at a concrete input: after writing `"do-it"` on the
initial world, the written key is present in the shared store. -/
theorem store_never_shrinks_witness :
    hasKey (MutexStore.mk [("do-it", true)] false) "do-it" = true :=
  ((store_never_shrinks BEHOLD "do-it" true initWorld
      (World.mk [MutexStore.mk [("do-it", true)] false]) rfl).2.2.1
    (MutexStore.mk [] false) (MutexStore.mk [("do-it", true)] false) rfl rfl).2.2
